import Mathlib

/-!
# Eternal — Family Story Preservation: verification of the core data layer

A shallow Lean 4 embedding of the repository's data model and operations:

* the row ↔ app-type mappers (`lib/mappers.ts`, `lib/database.types.ts`);
* the profile repository's chunked bulk upsert (`repos/profileRepo.ts`);
* the reconciliation cache (`hooks/useArchiveStore.ts`): diffing profile
  mutator, optimistic post creation with rollback, post deletion, teardown;
* the repositories' list orderings (`profileRepo.ts`, `treeRepo.ts`,
  `repos/postRepo.ts`) against a model of the remote store's sort;
* post / media creation with best-effort join-table tagging
  (`repos/postRepo.ts`, `repos/mediaRepo.ts`);
* the GEDCOM import flow (`hooks/useGedcomImport.ts`); the parser itself
  (`utils/gedcom.ts`) is not part of the sources and is modelled from the
  specification where needed.

Remote (Supabase) calls are abstracted by outcome oracles: a Boolean (or
`Nat → Bool`) parameter saying whether a given remote call fails.  The
in-memory effects and the sequence of outgoing calls are computed exactly as
the TypeScript does.
-/

namespace Eternal

/-! ## Data model

App-side types, reconstructed from the mapper functions in `lib/mappers.ts`
and the row shapes in `lib/database.types.ts`.  `timeline` / `memories` /
`attachments` entries are stored as JSONB and passed through the mappers
unchanged; they are modelled as small concrete structures (spec §3). -/

/-- gender_code enum from database.types.ts. -/
inductive GenderCode where
  | M | F | U
deriving DecidableEq, Repr

/-- A life event on a profile's timeline (spec §3; JSONB pass-through). -/
structure LifeEvent where
  id : String
  type : String
  date : String
  place : String
  spouseName : Option String
deriving DecidableEq, Repr

/-- A free-text memory note (spec §3; JSONB pass-through). -/
structure Memory where
  id : String
  text : String
  timestamp : String
deriving DecidableEq, Repr

/-- historical_context column value: { text, sources } object or null. -/
structure HistoricalContext where
  text : String
  sources : List String
deriving DecidableEq, Repr

/-- App-side Profile type, as produced by rowToProfile in lib/mappers.ts.
Empty string in birthYear / imageUrl / summary means "unset" (row null);
gender / deathYear / historicalContext use Option for undefined. -/
structure Profile where
  id : String
  userId : String
  name : String
  gender : Option GenderCode
  birthYear : String
  deathYear : Option String
  imageUrl : String
  summary : String
  historicalContext : Option HistoricalContext
  isMemorial : Bool
  parentIds : List String
  childIds : List String
  spouseIds : List String
  timeline : List LifeEvent
  memories : List Memory
  sources : List String
deriving DecidableEq, Repr

/-- profiles table row (ProfileRow in database.types.ts). -/
structure ProfileRow where
  id : String
  user_id : String
  tree_id : Option String
  name : String
  gender : Option GenderCode
  birth_year : Option String
  death_year : Option String
  image_url : Option String
  summary : Option String
  historical_context : Option HistoricalContext
  is_memorial : Bool
  parent_ids : List String
  child_ids : List String
  spouse_ids : List String
  timeline : List LifeEvent
  memories : List Memory
  sources : List String
  created_at : String
  updated_at : String
deriving DecidableEq, Repr

/-- App-side FamilyTree type (rowToTree in lib/mappers.ts): homePersonId is a
String with the empty string meaning "unset" (row null maps to it). -/
structure FamilyTree where
  id : String
  userId : String
  name : String
  createdAt : String
  homePersonId : String
  memberIds : List String
deriving DecidableEq, Repr

/-- trees table row (TreeRow in database.types.ts). -/
structure TreeRow where
  id : String
  user_id : String
  name : String
  home_person_id : Option String
  member_ids : List String
  created_at : String
  updated_at : String
deriving DecidableEq, Repr

/-- A post attachment (JSONB pass-through). -/
structure CircleAttachment where
  id : String
  url : String
  kind : String
deriving DecidableEq, Repr

/-- App-side CirclePost type (rowToPost in lib/mappers.ts). -/
structure CirclePost where
  id : String
  userId : String
  createdAt : String
  authorLabel : String
  body : String
  attachments : List CircleAttachment
  taggedProfileIds : List String
deriving DecidableEq, Repr

/-- posts table row (PostRow in database.types.ts). -/
structure PostRow where
  id : String
  user_id : String
  author_label : String
  body : String
  attachments : List CircleAttachment
  created_at : String
  updated_at : String
deriving DecidableEq, Repr

/-! ## Mappers (lib/mappers.ts)

TypeScript `x || null` on a string maps the empty string to null;
`x ?? null` only maps undefined to null.  Row → app direction uses
`x ?? ''` / `x ?? undefined` / `x ?? []`. -/

/-- TS `s || null`: empty string becomes null. -/
def strOrNull (s : String) : Option String :=
  if s = "" then none else some s

/-- TS `x ?? ''` on a nullable string column. -/
def strOrEmpty (o : Option String) : String := o.getD ""

/-- rowToProfile (lib/mappers.ts). -/
def rowToProfile (row : ProfileRow) : Profile :=
  { id := row.id
    userId := row.user_id
    name := row.name
    gender := row.gender
    birthYear := strOrEmpty row.birth_year
    deathYear := row.death_year
    imageUrl := strOrEmpty row.image_url
    summary := strOrEmpty row.summary
    historicalContext := row.historical_context
    isMemorial := row.is_memorial
    parentIds := row.parent_ids
    childIds := row.child_ids
    spouseIds := row.spouse_ids
    timeline := row.timeline
    memories := row.memories
    sources := row.sources }

/-- profileToInsert (lib/mappers.ts), with the server-set timestamp columns
supplied separately so the result is a full row (the upsert's echo).
`death_year` uses TS `p.deathYear || null`, which also nulls an
empty-string deathYear. -/
def profileToInsert (p : Profile) (treeId : Option String)
    (createdAt updatedAt : String) : ProfileRow :=
  { id := p.id
    user_id := p.userId
    tree_id := treeId
    name := p.name
    gender := p.gender
    birth_year := strOrNull p.birthYear
    death_year := match p.deathYear with
      | none => none
      | some d => strOrNull d
    image_url := strOrNull p.imageUrl
    summary := strOrNull p.summary
    historical_context := p.historicalContext
    is_memorial := p.isMemorial
    parent_ids := p.parentIds
    child_ids := p.childIds
    spouse_ids := p.spouseIds
    timeline := p.timeline
    memories := p.memories
    sources := p.sources
    created_at := createdAt
    updated_at := updatedAt }

/-- rowToTree (lib/mappers.ts). -/
def rowToTree (row : TreeRow) : FamilyTree :=
  { id := row.id
    userId := row.user_id
    name := row.name
    createdAt := row.created_at
    homePersonId := strOrEmpty row.home_person_id
    memberIds := row.member_ids }

/-- rowToPost (lib/mappers.ts); taggedProfileIds injected from post_people. -/
def rowToPost (row : PostRow) (taggedProfileIds : List String) : CirclePost :=
  { id := row.id
    userId := row.user_id
    createdAt := row.created_at
    authorLabel := row.author_label
    body := row.body
    attachments := row.attachments
    taggedProfileIds := taggedProfileIds }

/-! ## Chunked bulk upsert (repos/profileRepo.ts, upsertProfiles)

The loop `for (let i = 0; i < profiles.length; i += CHUNK)` with
`CHUNK = 200` slices consecutive chunks.  A Supabase failure on the call for
the chunk starting at offset i throws `upsertProfiles (chunk ${i})`, so the
error carries the failing chunk's start offset. -/

/-- Consecutive slices of at most n elements (the slicing performed by the
upsertProfiles loop, generalised over the chunk size). -/
def chunksOf : Nat → List α → List (List α)
  | _, [] => []
  | 0, _ :: _ => []
  | n + 1, x :: xs =>
    (x :: xs).take (n + 1) :: chunksOf (n + 1) ((x :: xs).drop (n + 1))
termination_by _ l => l.length
decreasing_by
  rw [List.length_drop]
  exact Nat.sub_lt (Nat.succ_pos _) (Nat.succ_pos _)

theorem chunksOf_nil (n : Nat) : chunksOf n ([] : List α) = [] := by
  cases n <;> (rw [chunksOf.eq_def])

theorem chunksOf_cons (n : Nat) (l : List α) (hn : n ≠ 0) (hl : l ≠ []) :
    chunksOf n l = l.take n :: chunksOf n (l.drop n) := by
  match n, l with
  | 0, _ => exact absurd rfl hn
  | _ + 1, [] => exact absurd rfl hl
  | _ + 1, _ :: _ => rw [chunksOf.eq_def]

theorem chunksOf_join (n : Nat) (hn : n ≠ 0) :
    ∀ l : List α, (chunksOf n l).flatten = l := by
  suffices H : ∀ (len : Nat) (l : List α), l.length = len →
      (chunksOf n l).flatten = l by
    intro l; exact H l.length l rfl
  intro len
  induction len using Nat.strong_induction_on with
  | _ len ih =>
    intro l hl
    rcases eq_or_ne l [] with rfl | hne
    · simp [chunksOf_nil]
    · rw [chunksOf_cons n l hn hne]
      have hdrop : (l.drop n).length < len := by
        rw [List.length_drop, ← hl]
        exact Nat.sub_lt (List.length_pos.mpr hne) (Nat.pos_of_ne_zero hn)
      rw [List.flatten_cons, ih _ hdrop _ rfl, List.take_append_drop]

theorem chunksOf_length_le (n : Nat) :
    ∀ l c : List α, c ∈ chunksOf n l → c.length ≤ n := by
  suffices H : ∀ (len : Nat) (l : List α), l.length = len →
      ∀ c, c ∈ chunksOf n l → c.length ≤ n by
    intro l; exact H l.length l rfl
  intro len
  induction len using Nat.strong_induction_on with
  | _ len ih =>
    intro l hl c hc
    rcases eq_or_ne n 0 with rfl | hn
    · cases l <;> simp [chunksOf] at hc
    rcases eq_or_ne l [] with rfl | hne
    · simp [chunksOf_nil] at hc
    rw [chunksOf_cons n l hn hne] at hc
    rcases List.mem_cons.mp hc with rfl | hmem
    · exact (List.length_take n l) ▸ min_le_left n l.length
    · have hdrop : (l.drop n).length < len := by
        rw [List.length_drop, ← hl]
        exact Nat.sub_lt (List.length_pos.mpr hne) (Nat.pos_of_ne_zero hn)
      exact ih _ hdrop _ rfl c hmem

/-- For a 450-element input the loop produces chunk sizes 200, 200, 50. -/
theorem chunksOf_450 (l : List α) (h : l.length = 450) :
    (chunksOf 200 l).map List.length = [200, 200, 50] := by
  have h0 : l ≠ [] := by
    intro hnil; rw [hnil] at h; simp at h
  have h1 : (l.drop 200).length = 250 := by rw [List.length_drop, h]
  have h1ne : l.drop 200 ≠ [] := by
    intro hnil; rw [hnil] at h1; simp at h1
  have h2 : ((l.drop 200).drop 200).length = 50 := by
    rw [List.length_drop, h1]
  have h2ne : (l.drop 200).drop 200 ≠ [] := by
    intro hnil; rw [hnil] at h2; simp at h2
  have h3 : (((l.drop 200).drop 200).drop 200).length = 0 := by
    rw [List.length_drop, h2]
  have h3nil : ((l.drop 200).drop 200).drop 200 = [] :=
    List.length_eq_zero.mp h3
  rw [chunksOf_cons 200 l (by decide) h0,
    chunksOf_cons 200 _ (by decide) h1ne,
    chunksOf_cons 200 _ (by decide) h2ne, h3nil, chunksOf_nil]
  simp [List.length_take, h, h1, h2]

/-- The sequential call loop of upsertProfiles, with the remote abstracted by
an oracle: `fail k = true` means the Supabase call for chunk index k
returns an error.  Input is the chunk list; k is the current chunk index.
Output: the chunks actually sent (in order), the chunks whose call
succeeded (the committed prefix), and the overall result — `Except.error i`
models the thrown `upsertProfiles (chunk ${i})` where i = 200 * (chunk
index) is the loop's offset variable. -/
def upsertGo (fail : Nat → Bool) : Nat → List (List Profile) →
    List (List Profile) × List (List Profile) × Except Nat Unit
  | _, [] => ([], [], Except.ok ())
  | k, c :: cs =>
    if fail k then ([c], [], Except.error (200 * k))
    else
      let r := upsertGo fail (k + 1) cs
      (c :: r.1, c :: r.2.1, r.2.2)

/-- upsertProfiles (repos/profileRepo.ts): slice into chunks of CHUNK = 200
and issue one remote upsert per chunk, sequentially. -/
def upsertProfilesRun (fail : Nat → Bool) (profiles : List Profile) :
    List (List Profile) × List (List Profile) × Except Nat Unit :=
  upsertGo fail 0 (chunksOf 200 profiles)

theorem upsertGo_noFail (fail : Nat → Bool) :
    ∀ (cs : List (List Profile)) (k : Nat),
      (∀ j, j < cs.length → fail (k + j) = false) →
      upsertGo fail k cs = (cs, cs, Except.ok ()) := by
  intro cs
  induction cs with
  | nil => intro k _; rfl
  | cons c cs ih =>
    intro k h
    have h0 : fail k = false := by
      have := h 0 (Nat.succ_pos _)
      simpa using this
    have hrec := ih (k + 1)
      (fun j hj => by
        have hh := h (j + 1) (Nat.succ_lt_succ hj)
        have e : k + 1 + j = k + (j + 1) := by omega
        rw [e]; exact hh)
    simp [upsertGo, h0, hrec]

theorem upsertGo_firstFail (fail : Nat → Bool) :
    ∀ (cs : List (List Profile)) (k m : Nat), m < cs.length →
      (∀ j, j < m → fail (k + j) = false) → fail (k + m) = true →
      upsertGo fail k cs =
        (cs.take (m + 1), cs.take m, Except.error (200 * (k + m))) := by
  intro cs
  induction cs with
  | nil => intro k m hm _ _; exact absurd hm (by simp)
  | cons c cs ih =>
    intro k m hm hpre hfail
    cases m with
    | zero =>
      have h0 : fail k = true := by simpa using hfail
      simp [upsertGo, h0]
    | succ m =>
      have h0 : fail k = false := by
        have := hpre 0 (Nat.succ_pos _)
        simpa using this
      have e : k + 1 + m = k + (m + 1) := by omega
      have hrec := ih (k + 1) m (Nat.lt_of_succ_lt_succ hm)
        (fun j hj => by
          have hh := hpre (j + 1) (Nat.succ_lt_succ hj)
          have e' : k + 1 + j = k + (j + 1) := by omega
          rw [e']; exact hh)
        (by rw [e]; exact hfail)
      rw [e] at hrec
      simp [upsertGo, h0, hrec]

/-- A concrete profile value used to instantiate witnesses. -/
def sampleProfile : Profile :=
  { id := "p1", userId := "u1", name := "Ada", gender := none
    birthYear := "1900", deathYear := none, imageUrl := "", summary := ""
    historicalContext := none, isMemorial := false
    parentIds := [], childIds := [], spouseIds := []
    timeline := [], memories := [], sources := [] }

/-- C1: upsertProfiles splits its input into consecutive chunks of at most
200 items and issues one remote call per chunk, sequentially in order; a
450-profile bulk load yields exactly the chunk sizes 200, 200, 50 (hence
3 calls when no call fails); if the call for chunk k fails while chunks
0..k-1 succeeded, exactly chunks 0..k are issued (no later chunk), chunks
0..k-1 are the committed prefix, and the thrown error carries the failing
chunk's offset 200 * k, identifying the failing chunk. -/
theorem upsertProfiles_chunking (profiles : List Profile) (fail : Nat → Bool) :
    ((chunksOf 200 profiles).flatten = profiles ∧
      ∀ c ∈ chunksOf 200 profiles, c.length ≤ 200) ∧
    (profiles.length = 450 →
      (chunksOf 200 profiles).map List.length = [200, 200, 50]) ∧
    ((∀ j, j < (chunksOf 200 profiles).length → fail j = false) →
      upsertProfilesRun fail profiles =
        (chunksOf 200 profiles, chunksOf 200 profiles, Except.ok ())) ∧
    (∀ k, k < (chunksOf 200 profiles).length →
      (∀ j, j < k → fail j = false) → fail k = true →
      upsertProfilesRun fail profiles =
        ((chunksOf 200 profiles).take (k + 1),
          (chunksOf 200 profiles).take k,
          Except.error (200 * k))) := by
  refine ⟨⟨chunksOf_join 200 (by decide) profiles,
    chunksOf_length_le 200 profiles⟩, chunksOf_450 profiles, ?_, ?_⟩
  · intro h
    have := upsertGo_noFail fail (chunksOf 200 profiles) 0
      (fun j hj => by simpa using h j hj)
    simpa [upsertProfilesRun] using this
  · intro k hk hpre hfail
    have := upsertGo_firstFail fail (chunksOf 200 profiles) 0 k hk
      (fun j hj => by simpa using hpre j hj) (by simpa using hfail)
    simpa [upsertProfilesRun] using this

/-- Witness for C1 at a concrete input: 450 profiles, with the remote call
for chunk index 2 failing; the run stops with error offset 400 and the
chunk sizes are 200, 200, 50. -/
theorem upsertProfiles_chunking_witness :
    (upsertProfilesRun (fun k => decide (k = 2))
        (List.replicate 450 sampleProfile)).2.2 = Except.error 400 ∧
    (chunksOf 200 (List.replicate 450 sampleProfile)).map List.length
      = [200, 200, 50] := by
  obtain ⟨⟨hjoin, hle⟩, h450, hnf, hff⟩ :=
    upsertProfiles_chunking (List.replicate 450 sampleProfile)
      (fun k => decide (k = 2))
  have hmap := h450 (List.length_replicate 450 sampleProfile)
  have hcs : (chunksOf 200 (List.replicate 450 sampleProfile)).length = 3 := by
    have h := congrArg List.length hmap
    rwa [List.length_map] at h
  have hrun := hff 2 (by rw [hcs]; decide)
    (fun j hj => by
      match j, hj with
      | 0, _ => decide
      | 1, _ => decide)
    (by decide)
  constructor
  · rw [hrun]
  · exact hmap

/-! ## Reconciliation cache: the augmented setProfiles
(hooks/useArchiveStore.ts, lines 102-129) -/

/-- JS `new Map(prev.map(p => [p.id, p])).get(id)`: Map.set overwrites, so
lookup returns the LAST entry of prev carrying the id. -/
def mapGet (prev : List Profile) (id : String) : Option Profile :=
  prev.reverse.find? (fun q => q.id == id)

/-- The filter predicate inside setProfiles: an item of next is kept when it
is new (`!old`) or when its stored JSON differs.  The code compares via
JSON.stringify; profile objects are built with a fixed key order
(mappers / object literals / spreads), so stringify equality coincides
with structural equality. -/
def changedAgainst (prev : List Profile) (p : Profile) : Bool :=
  match mapGet prev p.id with
  | none => true
  | some old => old != p

/-- The diff computed inside setProfiles: the new or changed items of next. -/
def setProfilesToUpsert (prev next : List Profile) : List Profile :=
  next.filter (changedAgainst prev)

/-- The outgoing remote calls of one setProfiles application: none when the
diff is empty (upsertProfiles is not called), else one call per 200-chunk
of the diff. -/
def setProfilesCalls (prev next : List Profile) : List (List Profile) :=
  let toUpsert := setProfilesToUpsert prev next
  if toUpsert.length > 0 then chunksOf 200 toUpsert else []

theorem mapGet_self (prev : List Profile) (hnd : (prev.map Profile.id).Nodup)
    (p : Profile) (hp : p ∈ prev) : mapGet prev p.id = some p := by
  have hrev : p ∈ prev.reverse := List.mem_reverse.mpr hp
  have hsome : (prev.reverse.find? (fun q => q.id == p.id)).isSome := by
    apply List.find?_isSome.mpr
    exact ⟨p, hrev, by simp⟩
  obtain ⟨q, hq⟩ := Option.isSome_iff_exists.mp hsome
  have hqmem : q ∈ prev := List.mem_reverse.mp (List.mem_of_find?_eq_some hq)
  have hqid : q.id = p.id := by
    have := List.find?_some hq
    simpa using this
  have : q = p := List.inj_on_of_nodup_map hnd hqmem hp hqid
  rw [mapGet, hq, this]

theorem mapGet_mem (prev : List Profile) (id : String) (q : Profile)
    (h : mapGet prev id = some q) : q ∈ prev ∧ q.id = id := by
  refine ⟨List.mem_reverse.mp (List.mem_of_find?_eq_some h), ?_⟩
  have := List.find?_some h
  simpa using this

/-- C2: if the collection produced by the profile mutator is deep-equal,
item by item matched by id, to the previous one, setProfiles issues zero
outgoing writes; and if exactly one item changed (id-distinct lists equal
except at one position whose item keeps its id but differs), exactly one
outgoing write is issued, carrying only that item. -/
theorem setProfiles_reconciliation (prev next : List Profile) :
    ((∀ p ∈ next, mapGet prev p.id = some p) →
      setProfilesCalls prev next = []) ∧
    (∀ l₁ pOld pNew l₂, (prev.map Profile.id).Nodup →
      prev = l₁ ++ pOld :: l₂ → next = l₁ ++ pNew :: l₂ →
      pNew.id = pOld.id → pNew ≠ pOld →
      setProfilesCalls prev next = [[pNew]]) := by
  constructor
  · intro h
    have hupsert : setProfilesToUpsert prev next = [] := by
      rw [setProfilesToUpsert, List.filter_eq_nil_iff]
      intro p hp
      rw [changedAgainst, h p hp]
      simp
    simp [setProfilesCalls, hupsert]
  · intro l₁ pOld pNew l₂ hnd hprev hnext hid hne
    have hunchanged : ∀ p ∈ prev, changedAgainst prev p = false := by
      intro p hp
      rw [changedAgainst, mapGet_self prev hnd p hp]
      simp
    have hl₁ : l₁.filter (changedAgainst prev) = [] := by
      rw [List.filter_eq_nil_iff]
      intro p hp
      have hmem : p ∈ prev := by rw [hprev]; exact List.mem_append_left _ hp
      simp [hunchanged p hmem]
    have hl₂ : l₂.filter (changedAgainst prev) = [] := by
      rw [List.filter_eq_nil_iff]
      intro p hp
      have hmem : p ∈ prev := by
        rw [hprev]
        exact List.mem_append_right _ (List.mem_cons_of_mem _ hp)
      simp [hunchanged p hmem]
    have hOldMem : pOld ∈ prev := by
      rw [hprev]; exact List.mem_append_right _ (List.mem_cons_self _ _)
    have hNewPred : changedAgainst prev pNew = true := by
      rw [changedAgainst, hid, mapGet_self prev hnd pOld hOldMem]
      simpa using fun h => hne h.symm
    have hupsert : setProfilesToUpsert prev next = [pNew] := by
      rw [setProfilesToUpsert, hnext, List.filter_append, List.filter_cons,
        hNewPred, hl₁, hl₂]
      simp
    rw [setProfilesCalls]
    simp only [hupsert]
    rw [if_pos (by simp), chunksOf_cons 200 [pNew] (by decide) (by simp)]
    simp [chunksOf_nil]

/-- A second concrete profile: sampleProfile with one field changed. -/
def sampleProfileRenamed : Profile := { sampleProfile with name := "Grace" }

/-- Witness for C2: an identical collection produces no writes; changing one
field of the single item produces exactly one write carrying that item. -/
theorem setProfiles_reconciliation_witness :
    setProfilesCalls [sampleProfile] [sampleProfile] = [] ∧
    setProfilesCalls [sampleProfile] [sampleProfileRenamed]
      = [[sampleProfileRenamed]] := by
  constructor
  · exact (setProfiles_reconciliation [sampleProfile] [sampleProfile]).1
      (by decide)
  · exact (setProfiles_reconciliation [sampleProfile]
        [sampleProfileRenamed]).2
      [] sampleProfile sampleProfileRenamed [] (by decide) rfl rfl rfl
      (by decide)

/-! ## Optimistic post creation with rollback
(hooks/useArchiveStore.ts, addCirclePost, lines 172-179) -/

/-- Outcome of an abstracted remote call. -/
inductive RemoteOutcome where
  | ok | fail
deriving DecidableEq, Repr

/-- The synchronous effect of addCirclePost: the post is prepended to the
in-memory collection before any remote work. -/
def addCirclePostImmediate (prev : List CirclePost) (post : CirclePost) :
    List CirclePost :=
  post :: prev

/-- The settled state of addCirclePost once the createPost promise resolves:
on success nothing further happens (no then-handler); on failure the catch
handler logs once (the error channel observable, counted) and rolls back
by filtering the post's id out of the current collection. -/
def addCirclePostRun (prev : List CirclePost) (post : CirclePost) :
    RemoteOutcome → List CirclePost × Nat
  | RemoteOutcome.ok => (post :: prev, 0)
  | RemoteOutcome.fail =>
    ((post :: prev).filter (fun p => p.id != post.id), 1)

/-- A concrete post. -/
def samplePost : CirclePost :=
  { id := "post1", userId := "u1", createdAt := "2024-01-01"
    authorLabel := "Me", body := "hello", attachments := []
    taggedProfileIds := [] }

/-- A different post that shares samplePost's id. -/
def samplePostDup : CirclePost :=
  { id := "post1", userId := "u1", createdAt := "2024-01-02"
    authorLabel := "You", body := "other", attachments := []
    taggedProfileIds := [] }

/-- C3 counterexample: if the collection already holds a post with the same
id, the rollback filter also removes that pre-existing post, so the
collection is NOT left as it was before the create. -/
theorem addCirclePost_rollback_counterexample :
    (addCirclePostRun [samplePostDup] samplePost RemoteOutcome.fail).1
      ≠ [samplePostDup] := by
  decide

/-- C3 (amended): for every post created optimistically whose id does not
already occur in the collection, the post is prepended immediately; if
the remote create fails, the rollback removes every post with that id —
which, under the freshness hypothesis, restores exactly the pre-create
collection — and exactly one error is reported; on success nothing is
rolled back and no error is reported. -/
theorem addCirclePost_rollback (prev : List CirclePost) (post : CirclePost)
    (hfresh : post.id ∉ prev.map CirclePost.id) :
    addCirclePostImmediate prev post = post :: prev ∧
    addCirclePostRun prev post RemoteOutcome.ok = (post :: prev, 0) ∧
    addCirclePostRun prev post RemoteOutcome.fail = (prev, 1) := by
  refine ⟨rfl, rfl, ?_⟩
  rw [addCirclePostRun]
  have hfilter : (post :: prev).filter (fun p => p.id != post.id) = prev := by
    rw [List.filter_cons]
    simp only [bne_self_eq_false, Bool.false_eq_true, if_false]
    apply List.filter_eq_self.mpr
    intro p hp
    have : p.id ≠ post.id := fun h => hfresh (h ▸ List.mem_map_of_mem _ hp)
    simpa using this
  rw [hfilter]

/-- Witness for C3 at a concrete input: creating a fresh-id post over a
one-post collection rolls back to exactly that collection with one
reported error. -/
theorem addCirclePost_rollback_witness :
    addCirclePostRun [samplePost] { samplePost with id := "post2" }
      RemoteOutcome.fail = ([samplePost], 1) :=
  (addCirclePost_rollback [samplePost] { samplePost with id := "post2" }
    (by decide)).2.2

/-! ## Home-person selection (hooks/useGedcomImport.ts, chooseHome) -/

/-- The tree update performed by chooseHome: homePersonId is set to the
selected profile's id and the tree is renamed; memberIds is untouched. -/
def chooseHomeTree (tree : FamilyTree) (selected : Profile) : FamilyTree :=
  { tree with
    homePersonId := selected.id
    name := "The " ++ selected.name ++ " Archive" }

/-- Spec §3 Tree invariant: homePersonId, if set (non-empty, since the app
encodes "unset" as the empty string), is an element of memberIds. -/
def treeHomeInvariant (t : FamilyTree) : Prop :=
  t.homePersonId ≠ "" → t.homePersonId ∈ t.memberIds

/-- C4: choosing profile B as home person sets tree.homePersonId = B.id,
keeps memberIds unchanged, and — under the required precondition that
B.id is a member of tree.memberIds — the updated tree satisfies the
invariant that its homePersonId, if set, is an element of memberIds. -/
theorem chooseHome_invariant (tree : FamilyTree) (selected : Profile)
    (hmem : selected.id ∈ tree.memberIds) :
    (chooseHomeTree tree selected).homePersonId = selected.id ∧
    (chooseHomeTree tree selected).memberIds = tree.memberIds ∧
    treeHomeInvariant (chooseHomeTree tree selected) :=
  ⟨rfl, rfl, fun _ => hmem⟩

/-- A concrete tree whose member list contains sampleProfile's id. -/
def sampleTree : FamilyTree :=
  { id := "t1", userId := "u1", name := "Tree", createdAt := "2024-01-01"
    homePersonId := "", memberIds := ["p1", "p9"] }

/-- Witness for C4 at a concrete input. -/
theorem chooseHome_invariant_witness :
    (chooseHomeTree sampleTree sampleProfile).homePersonId
        = sampleProfile.id ∧
    (chooseHomeTree sampleTree sampleProfile).memberIds
        = sampleTree.memberIds ∧
    treeHomeInvariant (chooseHomeTree sampleTree sampleProfile) :=
  chooseHome_invariant sampleTree sampleProfile (by decide)

/-! ## Post deletion (hooks/useArchiveStore.ts, deleteCirclePost;
repos/postRepo.ts, deletePost) -/

/-- deleteCirclePost: remove the id from the in-memory collection, then
issue the remote delete (deletePost throws on Supabase error and the
catch handler logs it — counted as the surfaced error).  Output: final
collection, surfaced-error count, and whether a remote delete call was
issued. -/
def deleteCirclePostRun (posts : List CirclePost) (id : String) :
    RemoteOutcome → List CirclePost × Nat × Bool
  | RemoteOutcome.ok => (posts.filter (fun p => p.id != id), 0, true)
  | RemoteOutcome.fail => (posts.filter (fun p => p.id != id), 1, true)

/-- C7: the entity is removed from the in-memory collection and a remote
delete is issued; whatever the remote outcome, the entity stays absent
(the local removal equals the success-case state, never rolled back),
and a remote failure surfaces exactly one error while success surfaces
none. -/
theorem deleteCirclePost_spec (posts : List CirclePost) (id : String)
    (o : RemoteOutcome) :
    id ∉ ((deleteCirclePostRun posts id o).1.map CirclePost.id) ∧
    (deleteCirclePostRun posts id o).1
      = (deleteCirclePostRun posts id RemoteOutcome.ok).1 ∧
    (deleteCirclePostRun posts id o).2.2 = true ∧
    (deleteCirclePostRun posts id o).2.1
      = (if o = RemoteOutcome.fail then 1 else 0) := by
  have habsent :
      id ∉ ((posts.filter (fun p => p.id != id)).map CirclePost.id) := by
    intro hmem
    obtain ⟨p, hp, hpid⟩ := List.mem_map.mp hmem
    have := (List.mem_filter.mp hp).2
    rw [hpid] at this
    simp at this
  cases o with
  | ok => exact ⟨habsent, rfl, rfl, rfl⟩
  | fail => exact ⟨habsent, rfl, rfl, rfl⟩

/-! ## Teardown versus in-flight pushes (hooks/useArchiveStore.ts)

The hook's full local state, the completion handlers of asynchronous work
started before teardown, and the teardown transition (the user-null branch
of the initial-load effect together with the effect cleanup that sets the
cancelled flag; clearAll clears the same collections). -/

/-- The useState slots of useArchiveStore, plus the cancelled flag of the
initial-load effect's closure. -/
structure StoreState where
  profiles : List Profile
  familyTrees : List FamilyTree
  circlePosts : List CirclePost
  activeProfileId : Option String
  selectedTreeId : Option String
  treeViewId : Option String
  isLoading : Bool
  errorMsg : Option String
  cancelled : Bool
deriving DecidableEq, Repr

/-- A completion of asynchronous work that was started before teardown:
each constructor is one then / catch / finally handler in the hook. -/
inductive InFlight where
  /-- Promise.all of the initial load resolved with data. -/
  | loadResolved (trees : List FamilyTree) (profs : List Profile)
      (posts : List CirclePost)
  /-- The initial load rejected. -/
  | loadRejected (msg : String)
  /-- The initial load's finally clause. -/
  | loadSettled
  /-- createPost from addCirclePost rejected: the rollback handler. -/
  | postCreateFailed (post : CirclePost)
  /-- createPost resolved: addCirclePost attaches no then-handler. -/
  | postCreateSucceeded
  /-- deletePost rejected: log-only handler. -/
  | postDeleteFailed
  /-- upsertProfiles from setProfiles rejected: log-only handler. -/
  | profileUpsertFailed
  /-- createTree from setFamilyTrees rejected: log-only handler. -/
  | treeCreateFailed
  /-- updateTree from setFamilyTrees rejected: log-only handler. -/
  | treeUpdateFailed
  /-- deleteProfile from deleteProfileById rejected: log-only handler. -/
  | profileDeleteFailed
deriving DecidableEq, Repr

/-- What each completion handler does to the state.  The initial-load
handlers are guarded by the effect's cancelled flag; the post rollback
filter is NOT guarded and always runs against the current collection. -/
def applyCompletion (s : StoreState) : InFlight → StoreState
  | InFlight.loadResolved ts ps cs =>
    if s.cancelled then s
    else { s with familyTrees := ts, profiles := ps, circlePosts := cs }
  | InFlight.loadRejected m =>
    if s.cancelled then s else { s with errorMsg := some m }
  | InFlight.loadSettled =>
    if s.cancelled then s else { s with isLoading := false }
  | InFlight.postCreateFailed post =>
    { s with circlePosts := s.circlePosts.filter (fun q => q.id != post.id) }
  | InFlight.postCreateSucceeded => s
  | InFlight.postDeleteFailed => s
  | InFlight.profileUpsertFailed => s
  | InFlight.treeCreateFailed => s
  | InFlight.treeUpdateFailed => s
  | InFlight.profileDeleteFailed => s

/-- Teardown (sign-out): the effect re-runs with user = null, clearing every
collection and selection, and the previous run's cleanup has set its
closure's cancelled flag. -/
def tearDown (s : StoreState) : StoreState :=
  { s with
    profiles := [], familyTrees := [], circlePosts := []
    activeProfileId := none, selectedTreeId := none, treeViewId := none
    cancelled := true }

/-- The post-teardown invariant: cancelled stays set and every collection
stays empty. -/
def tornDown (s : StoreState) : Prop :=
  s.cancelled = true ∧ s.profiles = [] ∧ s.familyTrees = [] ∧
    s.circlePosts = []

theorem applyCompletion_tornDown (s : StoreState) (e : InFlight)
    (h : tornDown s) : tornDown (applyCompletion s e) := by
  obtain ⟨hc, hp, ht, hcp⟩ := h
  cases e with
  | loadResolved ts ps cs => exact ⟨by simp [applyCompletion, hc, hp, ht, hcp], by simp [applyCompletion, hc, hp], by simp [applyCompletion, hc, ht], by simp [applyCompletion, hc, hcp]⟩
  | loadRejected m => exact ⟨by simp [applyCompletion, hc], by simp [applyCompletion, hc, hp], by simp [applyCompletion, hc, ht], by simp [applyCompletion, hc, hcp]⟩
  | loadSettled => exact ⟨by simp [applyCompletion, hc], by simp [applyCompletion, hc, hp], by simp [applyCompletion, hc, ht], by simp [applyCompletion, hc, hcp]⟩
  | postCreateFailed post => exact ⟨hc, hp, ht, by simp [applyCompletion, hcp]⟩
  | postCreateSucceeded => exact ⟨hc, hp, ht, hcp⟩
  | postDeleteFailed => exact ⟨hc, hp, ht, hcp⟩
  | profileUpsertFailed => exact ⟨hc, hp, ht, hcp⟩
  | treeCreateFailed => exact ⟨hc, hp, ht, hcp⟩
  | treeUpdateFailed => exact ⟨hc, hp, ht, hcp⟩
  | profileDeleteFailed => exact ⟨hc, hp, ht, hcp⟩

/-- C8: from any state, after teardown, replaying any sequence of
completions of pushes started before teardown leaves every collection
empty: load results are discarded by the cancelled guard, and the post
rollback filter is a no-op on the emptied collection — no in-flight
completion mutates the in-memory collections after teardown. -/
theorem teardown_discards_inflight (s : StoreState) (es : List InFlight) :
    (es.foldl applyCompletion (tearDown s)).profiles = [] ∧
    (es.foldl applyCompletion (tearDown s)).familyTrees = [] ∧
    (es.foldl applyCompletion (tearDown s)).circlePosts = [] := by
  have hstart : tornDown (tearDown s) := ⟨rfl, rfl, rfl, rfl⟩
  have hfold : ∀ (l : List InFlight) (t : StoreState), tornDown t →
      tornDown (l.foldl applyCompletion t) := by
    intro l
    induction l with
    | nil => exact fun t ht => ht
    | cons e l ih =>
      intro t ht
      exact ih _ (applyCompletion_tornDown t e ht)
  obtain ⟨_, hp, ht, hcp⟩ := hfold es (tearDown s) hstart
  exact ⟨hp, ht, hcp⟩

/-! ## List orderings (profileRepo.listProfiles, treeRepo.listTrees,
postRepo.listPosts)

Each list call passes an order clause to the store — name ascending for
profiles, created_at descending for trees and posts (after the optional
tree_id filter for profiles, and with post_people profile_ids joined for
posts).  The store collaborator is modelled as returning its rows sorted by
the requested key (insertion sort as the model of the store's sort). -/

/-- Requested profile order: name ascending. -/
def byNameAsc (a b : ProfileRow) : Prop := a.name ≤ b.name

/-- Requested tree order: created_at descending. -/
def treeByCreatedDesc (a b : TreeRow) : Prop := b.created_at ≤ a.created_at

/-- Requested post order: created_at descending (row paired with its
post_people profile ids). -/
def postByCreatedDesc (a b : PostRow × List String) : Prop :=
  b.1.created_at ≤ a.1.created_at

instance : DecidableRel byNameAsc :=
  fun a b => inferInstanceAs (Decidable (a.name ≤ b.name))

instance : IsTotal ProfileRow byNameAsc := ⟨fun a b => le_total a.name b.name⟩

instance : IsTrans ProfileRow byNameAsc :=
  ⟨fun _ _ _ h h2 => le_trans h h2⟩

instance : DecidableRel treeByCreatedDesc :=
  fun a b => inferInstanceAs (Decidable (b.created_at ≤ a.created_at))

instance : IsTotal TreeRow treeByCreatedDesc :=
  ⟨fun a b => le_total b.created_at a.created_at⟩

instance : IsTrans TreeRow treeByCreatedDesc :=
  ⟨fun _ _ _ h h2 => le_trans h2 h⟩

instance : DecidableRel postByCreatedDesc :=
  fun a b => inferInstanceAs (Decidable (b.1.created_at ≤ a.1.created_at))

instance : IsTotal (PostRow × List String) postByCreatedDesc :=
  ⟨fun a b => le_total b.1.created_at a.1.created_at⟩

instance : IsTrans (PostRow × List String) postByCreatedDesc :=
  ⟨fun _ _ _ h h2 => le_trans h2 h⟩

/-- listProfiles (repos/profileRepo.ts): optional tree_id filter, then order
by name ascending, then map rows to profiles. -/
def treeScope (rows : List ProfileRow) : Option String → List ProfileRow
  | some t => rows.filter (fun r => r.tree_id == some t)
  | none => rows

def listProfilesRun (rows : List ProfileRow) (treeId : Option String) :
    List Profile :=
  (List.insertionSort byNameAsc (treeScope rows treeId)).map rowToProfile

/-- listTrees (treeRepo.ts): order by created_at descending. -/
def listTreesRun (rows : List TreeRow) : List FamilyTree :=
  (List.insertionSort treeByCreatedDesc rows).map rowToTree

/-- listPosts (repos/postRepo.ts): order by created_at descending, joining
each row's post_people profile_ids. -/
def listPostsRun (rows : List (PostRow × List String)) : List CirclePost :=
  (List.insertionSort postByCreatedDesc rows).map fun rp =>
    rowToPost rp.1 rp.2

/-- C9: every list call requests (and, under the modelled store contract,
receives) profiles ordered by name ascending, trees by creation time
descending, and posts by creation time descending. -/
theorem list_orderings (prows : List ProfileRow) (tid : Option String)
    (trows : List TreeRow) (porows : List (PostRow × List String)) :
    (listProfilesRun prows tid).Pairwise (fun a b => a.name ≤ b.name) ∧
    (listTreesRun trows).Pairwise (fun a b => b.createdAt ≤ a.createdAt) ∧
    (listPostsRun porows).Pairwise
      (fun a b => b.createdAt ≤ a.createdAt) := by
  refine ⟨?_, ?_, ?_⟩
  · rw [listProfilesRun]
    exact List.Pairwise.map rowToProfile (fun a b h => h)
      (List.sorted_insertionSort byNameAsc _)
  · rw [listTreesRun]
    exact List.Pairwise.map rowToTree (fun a b h => h)
      (List.sorted_insertionSort treeByCreatedDesc _)
  · rw [listPostsRun]
    exact List.Pairwise.map _ (fun a b h => h)
      (List.sorted_insertionSort postByCreatedDesc _)

/-! ## Post / media creation with best-effort join-table tagging
(repos/postRepo.ts createPost, repos/mediaRepo.ts uploadMedia) -/

/-- media_kind enum. -/
inductive MediaKind where
  | photo | video | audio | document
deriving DecidableEq, Repr

/-- media table row (MediaRow in database.types.ts). -/
structure MediaRow where
  id : String
  user_id : String
  name : String
  kind : MediaKind
  storage_path : String
  public_url : Option String
  mime : Option String
  size : Option Nat
  created_at : String
  updated_at : String
deriving DecidableEq, Repr

/-- App-side MediaItem (rowToMediaItem in repos/mediaRepo.ts). -/
structure MediaItem where
  id : String
  name : String
  kind : MediaKind
  url : String
  mime : Option String
  size : Option Nat
  createdAt : String
deriving DecidableEq, Repr

/-- rowToMediaItem (repos/mediaRepo.ts). -/
def rowToMediaItem (row : MediaRow) (signedUrl : String) : MediaItem :=
  { id := row.id, name := row.name, kind := row.kind, url := signedUrl
    mime := row.mime, size := row.size, createdAt := row.created_at }

/-- inferKind (repos/mediaRepo.ts). -/
def inferKind (mimeType : String) : MediaKind :=
  if mimeType.startsWith "image/" then MediaKind.photo
  else if mimeType.startsWith "video/" then MediaKind.video
  else if mimeType.startsWith "audio/" then MediaKind.audio
  else MediaKind.document

/-- postToInsert (lib/mappers.ts) completed with the server-set timestamps,
i.e. the row echoed by `.insert(...).select().single()`. -/
def postInsertRow (p : CirclePost) (createdAt updatedAt : String) : PostRow :=
  { id := p.id, user_id := p.userId, author_label := p.authorLabel
    body := p.body, attachments := p.attachments
    created_at := createdAt, updated_at := updatedAt }

/-- createPost (repos/postRepo.ts) with remote outcomes abstracted:
primaryFails — the posts insert errors (thrown); mentionFails — the
post_people insert errors, attempted only when taggedProfileIds is
non-empty, and on failure logged (counted), never thrown.  Returns the
thrown-or-returned result and the join-failure log count. -/
def createPostRun (post : CirclePost) (primaryFails mentionFails : Bool)
    (createdAt updatedAt : String) : Except String CirclePost × Nat :=
  if primaryFails then (Except.error "createPost", 0)
  else
    (Except.ok (rowToPost (postInsertRow post createdAt updatedAt)
        post.taggedProfileIds),
      if post.taggedProfileIds.length > 0 && mentionFails then 1 else 0)

/-- uploadMedia (repos/mediaRepo.ts) with remote outcomes abstracted, in the
code's order: storage upload (throws on failure), metadata insert (throws;
row echoed), media_people tag insert (attempted only for non-empty
taggedProfileIds; on failure logged, never thrown), final getSignedUrl
(throws on failure).  Returns the result and the tag-failure log count. -/
def uploadMediaRun (row : MediaRow) (signedUrl : String)
    (tagged : List String)
    (storageFails insertFails tagFails signFails : Bool) :
    Except String MediaItem × Nat :=
  if storageFails then (Except.error "uploadMedia storage", 0)
  else if insertFails then (Except.error "uploadMedia insert", 0)
  else
    if signFails then
      (Except.error "getSignedUrl",
        if tagged.length > 0 && tagFails then 1 else 0)
    else
      (Except.ok (rowToMediaItem row signedUrl),
        if tagged.length > 0 && tagFails then 1 else 0)

/-- A concrete media row. -/
def sampleMediaRow : MediaRow :=
  { id := "m1", user_id := "u1", name := "photo.jpg"
    kind := MediaKind.photo, storage_path := "u1/1-photo.jpg"
    public_url := none, mime := some "image/jpeg", size := some 123
    created_at := "2024-01-01", updated_at := "2024-01-01" }

/-- C6 counterexample: uploadMedia throws even though the primary metadata
insert succeeded — here the final signed-URL generation fails after the
insert and the tagging both succeeded, so "throws if and only if the
primary insert itself fails" is false for media. -/
theorem uploadMedia_throws_beyond_primary :
    (uploadMediaRun sampleMediaRow "url" ["p1"] false false false true).1
      = Except.error "getSignedUrl" := by
  rfl

/-- C6 (amended): a failing join-relation insert is logged exactly once and
not propagated — the create still returns the saved primary entity.
createPost throws if and only if the post insert fails; uploadMedia,
however, throws exactly when the storage upload, the metadata insert or
the final signed-URL generation fails (never merely from tagging). -/
theorem bestEffort_tagging (post : CirclePost)
    (primaryFails mentionFails : Bool) (c u : String) (row : MediaRow)
    (signedUrl : String) (tagged : List String)
    (storageFails insertFails tagFails signFails : Bool) :
    ((createPostRun post primaryFails mentionFails c u).1.isOk = true ↔
      primaryFails = false) ∧
    (primaryFails = false → mentionFails = true →
      post.taggedProfileIds ≠ [] →
      createPostRun post primaryFails mentionFails c u =
        (Except.ok (rowToPost (postInsertRow post c u)
            post.taggedProfileIds), 1)) ∧
    ((uploadMediaRun row signedUrl tagged storageFails insertFails
        tagFails signFails).1.isOk = true ↔
      (storageFails = false ∧ insertFails = false ∧ signFails = false)) ∧
    (storageFails = false → insertFails = false → signFails = false →
      tagFails = true → tagged ≠ [] →
      uploadMediaRun row signedUrl tagged storageFails insertFails
          tagFails signFails =
        (Except.ok (rowToMediaItem row signedUrl), 1)) := by
  refine ⟨?_, ?_, ?_, ?_⟩
  · cases primaryFails <;> simp [createPostRun, Except.isOk, Except.toBool]
  · intro hp hm ht
    subst hp; subst hm
    have hlen : post.taggedProfileIds.length > 0 :=
      List.length_pos.mpr ht
    simp [createPostRun, hlen]
  · cases storageFails <;> cases insertFails <;> cases signFails <;>
      simp [uploadMediaRun, Except.isOk, Except.toBool]
  · intro hs hi hg htag hne
    subst hs; subst hi; subst hg; subst htag
    have hlen : tagged.length > 0 := List.length_pos.mpr hne
    simp [uploadMediaRun, hlen]

/-- Witness for C6 at concrete inputs: a post with one tag whose join insert
fails is still returned with one logged error, and likewise for a media
item. -/
theorem bestEffort_tagging_witness :
    createPostRun { samplePost with taggedProfileIds := ["p1"] } false true
        "c" "u" =
      (Except.ok (rowToPost
          (postInsertRow { samplePost with taggedProfileIds := ["p1"] }
            "c" "u") ["p1"]), 1) ∧
    uploadMediaRun sampleMediaRow "url" ["p1"] false false true false =
      (Except.ok (rowToMediaItem sampleMediaRow "url"), 1) := by
  obtain ⟨h1, h2, h3, h4⟩ :=
    bestEffort_tagging { samplePost with taggedProfileIds := ["p1"] }
      false true "c" "u" sampleMediaRow "url" ["p1"] false false true false
  exact ⟨h2 rfl rfl (by decide), h4 rfl rfl rfl rfl (by decide)⟩

/-! ## Profile row round-trip (lib/mappers.ts, rowToProfile ∘ profileToInsert) -/

theorem strOrEmpty_strOrNull (s : String) : strOrEmpty (strOrNull s) = s := by
  rw [strOrNull]
  rcases eq_or_ne s "" with rfl | h
  · rw [if_pos rfl]; rfl
  · rw [if_neg h]; rfl

/-- C10 counterexample: a profile whose deathYear is the EMPTY STRING (not
undefined) does not round-trip — `p.deathYear || null` also nulls the
empty string, and rowToProfile maps that null back to undefined (none),
not to the empty string. -/
theorem profile_roundtrip_counterexample :
    rowToProfile (profileToInsert { sampleProfile with deathYear := some "" }
        none "c" "u")
      ≠ { sampleProfile with deathYear := some "" } := by
  decide

/-- C10 (amended): for every profile whose deathYear is not the empty
string, mapping through profileToInsert and back through rowToProfile is
the identity: id, name, isMemorial, the relationship id-arrays, timeline,
memories and sources are preserved exactly, empty-string birthYear /
imageUrl / summary go through null and come back as the empty string,
and undefined gender / deathYear go through null and come back as
undefined.  An empty-string deathYear, however, is also sent as null and
comes back as undefined. -/
theorem profile_roundtrip (p : Profile) (treeId : Option String)
    (createdAt updatedAt : String) (h : p.deathYear ≠ some "") :
    rowToProfile (profileToInsert p treeId createdAt updatedAt) = p := by
  have hdeath :
      (match p.deathYear with
        | none => none
        | some d => strOrNull d) = p.deathYear := by
    rcases hd : p.deathYear with _ | d
    · rfl
    · show strOrNull d = some d
      have hd0 : d ≠ "" := by
        intro he
        exact h (by rw [hd, he])
      simp only [strOrNull, if_neg hd0]
  cases p
  simp only [rowToProfile, profileToInsert, strOrEmpty_strOrNull]
  simp only at hdeath
  rw [hdeath]

/-- Witness for C10 at a concrete input: a profile with a non-empty
deathYear (and empty imageUrl / summary, undefined gender) round-trips
exactly. -/
theorem profile_roundtrip_witness :
    rowToProfile (profileToInsert { sampleProfile with deathYear := some "1980" }
        (some "t1") "c" "u")
      = { sampleProfile with deathYear := some "1980" } :=
  profile_roundtrip { sampleProfile with deathYear := some "1980" }
    (some "t1") "c" "u" (by decide)

/-! ## GEDCOM import pipeline

Modelled from the spec: the parser (`parseGedcom` in utils/gedcom.ts,
called by hooks/useGedcomImport.ts) is not among the sources; §4.1-§4.3 of
the specification describe it, and the model below follows those words:
a line tokenizer that skips malformed lines, record grouping by level-0
lines, Individual (INDI) and Family (FAM) records, and a breadth-first
walk bounded by a generation count, with dangling family references
omitted from the relevant id-sets.  Character-level splitting stands in
for the string splitting of the tokenizer. -/

/-- One tokenized GEDCOM line: level, optional cross-reference id, tag,
value (spec §4.1). -/
structure GedLine where
  level : Nat
  xref : Option String
  tag : String
  value : String
deriving DecidableEq, Repr

/-- Split a character list at a separator (the tokenizer's line / word
splitting). -/
def splitOnChar (c : Char) : List Char → List (List Char)
  | [] => [[]]
  | x :: xs =>
    match splitOnChar c xs with
    | [] => [[x]]
    | g :: gs => if x = c then [] :: g :: gs else (x :: g) :: gs

/-- The non-empty whitespace-separated words of a line. -/
def wordsOf (s : List Char) : List (List Char) :=
  (splitOnChar ' ' s).filter (fun w => !w.isEmpty)

/-- Decimal digit value of a character, if any. -/
def digitVal (c : Char) : Option Nat :=
  if '0' ≤ c ∧ c ≤ '9' then some (c.toNat - 48) else none

/-- Parse a nonempty all-digit word as a Nat (the line's level). -/
def levelOfWord : List Char → Option Nat
  | [] => none
  | s@(_ :: _) =>
    s.foldl (fun acc c => acc.bind fun n => (digitVal c).map fun d =>
      n * 10 + d) (some 0)

/-- Is the word a cross-reference pointer, `@...@` with nonempty inside? -/
def isPointerWord (w : List Char) : Bool :=
  w.head? == some '@' && w.getLast? == some '@' && decide (w.length ≥ 3)

/-- Strip the surrounding `@` of a pointer word. -/
def stripPointer (w : List Char) : List Char := (w.drop 1).dropLast

/-- Rejoin the value words with single spaces. -/
def joinWords (ws : List (List Char)) : List Char :=
  (ws.intersperse [' ']).flatten

/-- Tokenize one physical line (spec §4.1): leveled tag line with optional
cross-reference id; a line missing a level or a tag is malformed and
skipped (none). -/
def tokenizeLine (line : List Char) : Option GedLine :=
  match wordsOf line with
  | [] => none
  | lvl :: rest =>
    match levelOfWord lvl with
    | none => none
    | some n =>
      match rest with
      | [] => none
      | w :: ws =>
        if isPointerWord w then
          match ws with
          | [] => none
          | t :: vs =>
            some { level := n, xref := some (String.mk (stripPointer w))
                   tag := String.mk t, value := String.mk (joinWords vs) }
        else
          some { level := n, xref := none, tag := String.mk w
                 value := String.mk (joinWords ws) }

/-- Tokenize whole GEDCOM text, read wholesale, one tuple per physical
line, in file order, malformed lines skipped (spec §4.1). -/
def tokenize (text : String) : List GedLine :=
  (splitOnChar '\n' text.data).filterMap tokenizeLine

/-- Group the token sequence into records: each level-0 line opens a record
holding the following lines up to the next level-0 line; leading lines
before any level-0 line are dropped (spec §4.2). -/
def recordsOf (ls : List GedLine) : List (GedLine × List GedLine) :=
  (ls.foldr
    (fun l acc =>
      if l.level = 0 then ([], (l, acc.1) :: acc.2)
      else (l :: acc.1, acc.2))
    ([], [])).2

/-- An Individual record: cross-reference id plus body lines (spec §4.2). -/
structure IndiRecord where
  id : String
  body : List GedLine
deriving DecidableEq, Repr

/-- A Family record: spouse pair and child list, as pointer values of the
HUSB / WIFE / CHIL body lines (spec §4.2). -/
structure FamRecord where
  id : String
  husb : Option String
  wife : Option String
  chil : List String
deriving DecidableEq, Repr

/-- Parse a pointer-shaped value. -/
def pointerValue (v : String) : Option String :=
  if isPointerWord v.data then some (String.mk (stripPointer v.data))
  else none

/-- The Individual records of the text: level-0 INDI lines with a
cross-reference id. -/
def individualsOf (text : String) : List IndiRecord :=
  (recordsOf (tokenize text)).filterMap fun r =>
    match r.1.xref with
    | some x => if r.1.tag = "INDI" then some ⟨x, r.2⟩ else none
    | none => none

/-- The Family records of the text, with HUSB / WIFE / CHIL pointers. -/
def familiesOf (text : String) : List FamRecord :=
  (recordsOf (tokenize text)).filterMap fun r =>
    match r.1.xref with
    | some x =>
      if r.1.tag = "FAM" then
        some { id := x
               husb := (r.2.find? (fun l => l.tag == "HUSB")).bind
                 (fun l => pointerValue l.value)
               wife := (r.2.find? (fun l => l.tag == "WIFE")).bind
                 (fun l => pointerValue l.value)
               chil := (r.2.filter (fun l => l.tag == "CHIL")).filterMap
                 (fun l => pointerValue l.value) }
      else none
    | none => none

/-- The ids of the text's Individual records. -/
def indiIds (text : String) : List String :=
  (individualsOf text).map IndiRecord.id

/-- Restrict a reference list to ids of existing Individuals — dangling
ends of partial families are simply omitted from the id-set — and
de-duplicate it (the sets are id-sets, spec §4.3). -/
def knownOnly (ids known : List String) : List String :=
  (ids.filter (fun i => known.contains i)).dedup

theorem knownOnly_subset (ids known : List String) :
    ∀ a ∈ knownOnly ids known, a ∈ known := by
  intro a ha
  have hmem := List.mem_dedup.mp ha
  have hc := (List.mem_filter.mp hmem).2
  simpa using hc

/-- Parents of an individual: spouses of every family listing it as child
(spec §4.3 relationship id-sets from Family-record linkage). -/
def parentIdsOf (i : String) (fams : List FamRecord) (known : List String) :
    List String :=
  knownOnly
    ((fams.filter (fun f => f.chil.contains i)).flatMap
      (fun f => f.husb.toList ++ f.wife.toList))
    known

/-- Children of an individual: child lists of families where it is a
spouse. -/
def childIdsOf (i : String) (fams : List FamRecord) (known : List String) :
    List String :=
  knownOnly
    ((fams.filter (fun f => f.husb == some i || f.wife == some i)).flatMap
      FamRecord.chil)
    known

/-- Spouses of an individual: the other spouse of families where it is a
spouse. -/
def spouseIdsOf (i : String) (fams : List FamRecord) (known : List String) :
    List String :=
  knownOnly
    ((fams.filter (fun f => f.husb == some i)).filterMap FamRecord.wife ++
      (fams.filter (fun f => f.wife == some i)).filterMap FamRecord.husb)
    known

/-- The NAME line's value, if any. -/
def nameOf (r : IndiRecord) : String :=
  match r.body.find? (fun l => l.tag == "NAME") with
  | some l => l.value
  | none => "Unknown"

/-- The SEX line's value mapped to the gender code. -/
def genderOf (r : IndiRecord) : Option GenderCode :=
  match r.body.find? (fun l => l.tag == "SEX") with
  | some l =>
    if l.value = "M" then some GenderCode.M
    else if l.value = "F" then some GenderCode.F
    else some GenderCode.U
  | none => none

/-- The DATE sub-line value of the first event line with the given tag
(events sit at level 1, their DATE at level 2). -/
def dateAfter (t : String) (body : List GedLine) : String :=
  match body.dropWhile (fun l => l.tag != t) with
  | [] => ""
  | _ :: rest =>
    match (rest.takeWhile (fun l => decide (l.level ≥ 2))).find?
        (fun l => l.tag == "DATE") with
    | some d => d.value
    | none => ""

/-- Convert a visited Individual into a Person (spec §4.3): relationship
id-sets built from the Family-record linkage restricted to existing
individuals, tagged with the ownerId. -/
def mkPerson (ownerId : String) (r : IndiRecord) (fams : List FamRecord)
    (known : List String) : Profile :=
  { id := r.id
    userId := ownerId
    name := nameOf r
    gender := genderOf r
    birthYear := dateAfter "BIRT" r.body
    deathYear := strOrNull (dateAfter "DEAT" r.body)
    imageUrl := "", summary := "", historicalContext := none
    isMemorial := false
    parentIds := parentIdsOf r.id fams known
    childIds := childIdsOf r.id fams known
    spouseIds := spouseIdsOf r.id fams known
    timeline := [], memories := [], sources := [] }

/-- BFS neighbor list of an individual at generation g: parent/child edges
increment the generation counter, spouse edges do not (spec §4.3). -/
def neighborsOf (i : String) (fams : List FamRecord) (known : List String)
    (g : Nat) : List (String × Nat) :=
  (parentIdsOf i fams known ++ childIdsOf i fams known).map
      (fun j => (j, g + 1)) ++
    (spouseIdsOf i fams known).map (fun j => (j, g))

/-- Breadth-first expansion (spec §4.3): a queue of (id, generation) pairs,
visiting each individual once; neighbors past maxGenerations are not
enqueued (expansion stops along that branch).  fuel bounds the number of
dequeues; parseGedcom passes a fuel that dominates every possible number
of queue entries, so it never runs out. -/
def bfs (fams : List FamRecord) (known : List String) (maxGen : Nat) :
    Nat → List (String × Nat) → List String → List String
  | 0, _, visited => visited
  | _ + 1, [], visited => visited
  | fuel + 1, (i, g) :: queue, visited =>
    if visited.contains i then bfs fams known maxGen fuel queue visited
    else
      bfs fams known maxGen fuel
        (queue ++ (neighborsOf i fams known g).filter
          (fun p => decide (p.2 ≤ maxGen)))
        (visited ++ [i])

/-- An upper bound on the total length of all neighbor lists. -/
def famsSize (fams : List FamRecord) : Nat :=
  fams.foldl (fun a f => a + f.chil.length + 4) 0

/-- The import result: the deduplicated people and the fresh tree (spec
§4.3), homePersonId left unset. -/
structure ImportResult where
  importedProfiles : List Profile
  tree : FamilyTree
deriving DecidableEq, Repr

/-- The import's only failure mode (spec §4.3 / §7). -/
inductive ParseError where
  | noIndividuals
deriving DecidableEq, Repr

/-- Modelled from the spec: parseGedcom (utils/gedcom.ts, absent from the
sources) per §4.3 — build the record graph, fail with ParseError exactly
when there are zero Individual records, else expand breadth-first from
the first Individual up to maxGenerations and emit the visited people
plus one fresh Tree with homePersonId unset. -/
def parseGedcom (text : String) (ownerId : String) (maxGen : Nat) :
    Except ParseError ImportResult :=
  let fams := familiesOf text
  let known := indiIds text
  match individualsOf text with
  | [] => Except.error ParseError.noIndividuals
  | first :: restIndis =>
    let fuel := 1 + (known.length + 1) * (1 + famsSize fams)
    let visited := bfs fams known maxGen fuel [(first.id, 0)] []
    let people := ((first :: restIndis).filter
        (fun r => visited.contains r.id)).map
      (fun r => mkPerson ownerId r fams known)
    Except.ok
      { importedProfiles := people
        tree :=
          { id := "tree-" ++ first.id, userId := ownerId
            name := "Imported Archive", createdAt := ""
            homePersonId := ""
            memberIds := people.map Profile.id } }

/-- C5: the GEDCOM import fails (and raises ParseError, returning no
partial tree — the error constructor carries none) exactly when the
text has zero Individual records; incomplete Family links never cause a
failure, and every imported person's relationship id-sets mention only
ids of existing Individual records (dangling references are omitted). -/
theorem parseGedcom_spec :
    (∀ (text ownerId : String) (maxGen : Nat),
      (parseGedcom text ownerId maxGen).isOk = false ↔
        individualsOf text = []) ∧
    (∀ (text ownerId : String) (maxGen : Nat) (res : ImportResult),
      parseGedcom text ownerId maxGen = Except.ok res →
      ∀ p ∈ res.importedProfiles,
        (∀ a ∈ p.parentIds, a ∈ indiIds text) ∧
        (∀ a ∈ p.childIds, a ∈ indiIds text) ∧
        (∀ a ∈ p.spouseIds, a ∈ indiIds text)) := by
  constructor
  · intro text ownerId maxGen
    rw [parseGedcom]
    cases hi : individualsOf text with
    | nil => simp [Except.isOk, Except.toBool]
    | cons first rest => simp [Except.isOk, Except.toBool]
  · intro text ownerId maxGen res hres p hp
    rw [parseGedcom] at hres
    cases hi : individualsOf text with
    | nil => rw [hi] at hres; exact absurd hres (by simp)
    | cons first rest =>
      rw [hi] at hres
      simp only [Except.ok.injEq] at hres
      rw [← hres] at hp
      simp only [List.mem_map] at hp
      obtain ⟨r, _, hr⟩ := hp
      rw [← hr]
      exact ⟨knownOnly_subset _ _, knownOnly_subset _ _,
        knownOnly_subset _ _⟩

/-- A concrete GEDCOM text: one Individual, and a Family whose WIFE and
CHIL references point at individuals that do not exist. -/
def sampleGedcom : String :=
  "0 @I1@ INDI\n1 NAME John /Doe/\n1 SEX M\n0 @F1@ FAM\n1 HUSB @I1@\n1 WIFE @X9@\n1 CHIL @X8@"

/-- Witness for C5 at a concrete input: the dangling-reference text has an
Individual record, so the import succeeds, and every id-set of the
result mentions only existing individuals. -/
theorem parseGedcom_spec_witness :
    individualsOf sampleGedcom ≠ [] ∧
    (parseGedcom sampleGedcom "owner" 4).isOk = true ∧
    ((parseGedcom sampleGedcom "owner" 4).toOption.map
        (fun res => res.importedProfiles.all fun p =>
          p.parentIds.all (fun a => decide (a ∈ indiIds sampleGedcom)) &&
          p.childIds.all (fun a => decide (a ∈ indiIds sampleGedcom)) &&
          p.spouseIds.all (fun a => decide (a ∈ indiIds sampleGedcom))))
      = some true := by
  obtain ⟨h1, h2⟩ := parseGedcom_spec
  have hne : individualsOf sampleGedcom ≠ [] := by decide
  have hok : (parseGedcom sampleGedcom "owner" 4).isOk = true := by
    cases hb : (parseGedcom sampleGedcom "owner" 4).isOk with
    | false => exact absurd ((h1 sampleGedcom "owner" 4).mp hb) hne
    | true => rfl
  refine ⟨hne, hok, ?_⟩
  cases hp : parseGedcom sampleGedcom "owner" 4 with
  | error e =>
    rw [hp] at hok
    exact absurd hok (by simp [Except.isOk, Except.toBool])
  | ok res =>
    have hsub := h2 sampleGedcom "owner" 4 res hp
    show some _ = some true
    congr 1
    rw [List.all_eq_true]
    intro p hpmem
    obtain ⟨hpar, hchi, hspo⟩ := hsub p hpmem
    rw [Bool.and_eq_true, Bool.and_eq_true, List.all_eq_true,
      List.all_eq_true, List.all_eq_true]
    exact ⟨⟨fun a ha => decide_eq_true (hpar a ha),
      fun a ha => decide_eq_true (hchi a ha)⟩,
      fun a ha => decide_eq_true (hspo a ha)⟩
